import Mathlib

/-!
# Pydis: a verified shallow embedding of the wire codec, store and dispatcher

Shallow embedding of `src/main.py`: the RESP-like codec
(`ProtocolHandler.handle_request` / `ProtocolHandler._write`), the key-value
store commands (`Server.get/set/delete/flush/mget/mset`), the request
dispatcher (`Server.get_response`) and one iteration of the per-connection
loop (`Server.connection_handler`).

Conventions:
* a Python `bytes` object is a `List Nat` of byte values;
* a Python `str` is its list of Unicode code points (`List Nat`);
* the socket stream is a `List Nat` consumed from the front;
* Python `dict` is an insertion-ordered association list with unique keys
  (`dictInsert` replaces in place or appends, as CPython does);
* decoding is fuel-indexed (`decodeF`); the fuel bounds nesting depth and is
  an artifact of the embedding (`DErr.outOfFuel` is unreachable for streams
  produced by the encoder, as the round-trip theorem shows).
-/

namespace Pydis

/-- The Python values that cross the codec in either direction
(`bytes`, `str`, `int`, the `Error` namedtuple, `None`, `list`, `dict`).
`pyerr`'s message is itself a value: decoding always builds it from `bytes`
(`handle_error`), while the server builds it from `str(exc)` (a `str`). -/
inductive PyObj where
  | pystr (cps : List Nat)
  | pybytes (bs : List Nat)
  | pyint (i : Int)
  | pyerr (msg : PyObj)
  | pynone
  | pylist (xs : List PyObj)
  | pydict (ps : List (PyObj × PyObj))

mutual

/-- Structural equality of values, modelling Python `==` on the shapes that
can meet as dict keys or replies (cross-type values are never equal in
Python either, and the order-insensitivity of Python dict equality is never
exercised: unhashable values cannot be keys). -/
def pyBeq : PyObj → PyObj → Bool
  | .pystr a, .pystr b => a == b
  | .pybytes a, .pybytes b => a == b
  | .pyint a, .pyint b => a == b
  | .pyerr a, .pyerr b => pyBeq a b
  | .pynone, .pynone => true
  | .pylist a, .pylist b => pyBeqList a b
  | .pydict a, .pydict b => pyBeqPairs a b
  | _, _ => false

def pyBeqList : List PyObj → List PyObj → Bool
  | [], [] => true
  | a :: as2, b :: bs2 => pyBeq a b && pyBeqList as2 bs2
  | _, _ => false

def pyBeqPairs : List (PyObj × PyObj) → List (PyObj × PyObj) → Bool
  | [], [] => true
  | (k1, v1) :: as2, (k2, v2) :: bs2 => pyBeq k1 k2 && pyBeq v1 v2 && pyBeqPairs as2 bs2
  | _, _ => false

end

mutual

/-- `pyBeq` decides propositional equality. -/
def pyBeqIff : (a b : PyObj) → (pyBeq a b = true ↔ a = b)
  | a, b => by
    cases a <;> cases b <;> simp [pyBeq]
    case pyerr.pyerr a b => exact pyBeqIff a b
    case pylist.pylist a b => exact pyBeqListIff a b
    case pydict.pydict a b => exact pyBeqPairsIff a b

def pyBeqListIff : (a b : List PyObj) → (pyBeqList a b = true ↔ a = b)
  | [], [] => by simp [pyBeqList]
  | [], _ :: _ => by simp [pyBeqList]
  | _ :: _, [] => by simp [pyBeqList]
  | a :: as2, b :: bs2 => by
    simp [pyBeqList, pyBeqIff a b, pyBeqListIff as2 bs2]

def pyBeqPairsIff : (a b : List (PyObj × PyObj)) → (pyBeqPairs a b = true ↔ a = b)
  | [], [] => by simp [pyBeqPairs]
  | [], _ :: _ => by simp [pyBeqPairs]
  | _ :: _, [] => by simp [pyBeqPairs]
  | (k1, v1) :: as2, (k2, v2) :: bs2 => by
    simp [pyBeqPairs, pyBeqIff k1 k2, pyBeqIff v1 v2, pyBeqPairsIff as2 bs2]

end

instance : DecidableEq PyObj := fun a b => decidable_of_iff _ (pyBeqIff a b)

instance {ε α : Type} [DecidableEq ε] [DecidableEq α] : DecidableEq (Except ε α) := fun a b =>
  match a, b with
  | .ok x, .ok y => decidable_of_iff (x = y) (by simp)
  | .error x, .error y => decidable_of_iff (x = y) (by simp)
  | .ok _, .error _ => isFalse (by simp)
  | .error _, .ok _ => isFalse (by simp)

/-- Exceptions that can escape a decode call (`ProtocolHandler.handle_request`).
`badRequest` is `CommandError("bad request")` (unknown tag byte); `valueError`
is the `ValueError` from `int()` on the recorded line content — the
"ProtocolError" of the specification's taxonomy; `typeErrorUnhashable` is the
`TypeError` from `dict()` on an unhashable key; `outOfFuel` is an embedding
artifact. -/
inductive DErr where
  | disconnect
  | badRequest
  | valueError (content : List Nat)
  | typeErrorUnhashable
  | outOfFuel
deriving DecidableEq

/-- Result of one decode call: a value plus the rest of the stream, or an
exception plus the stream position where the parse stopped. -/
inductive DRes where
  | dok (v : PyObj) (rest : List Nat)
  | derr (e : DErr) (rest : List Nat)
deriving DecidableEq

/-- Result of the element loop of `handle_array` / `handle_dict`. -/
inductive LRes where
  | lok (vs : List PyObj) (rest : List Nat)
  | lerr (e : DErr) (rest : List Nat)
deriving DecidableEq

/-- ASCII whitespace, as recognized by Python's `int()` and `bytes.split()`. -/
def isSpace (b : Nat) : Bool :=
  b = 32 || b = 9 || b = 10 || b = 13 || b = 11 || b = 12

def isDigit (b : Nat) : Bool := 48 ≤ b && b ≤ 57

def isCRLF (b : Nat) : Bool := b = 13 || b = 10

/-- `socket_file.readline()`: everything up to and including the first `\n`,
or the whole rest of the stream at EOF. Returns `(line, rest)`. -/
def readLine : List Nat → List Nat × List Nat
  | [] => ([], [])
  | b :: rest =>
    if b = 10 then ([10], rest)
    else
      let p := readLine rest
      (b :: p.1, p.2)

/-- `line.rstrip(b"\r\n")`: strip every trailing `\r` or `\n` byte. -/
def rstripCRLF (l : List Nat) : List Nat :=
  (l.reverse.dropWhile isCRLF).reverse

/-- Strip ASCII whitespace from both ends (what `int()` tolerates). -/
def stripWs (l : List Nat) : List Nat :=
  ((l.dropWhile isSpace).reverse.dropWhile isSpace).reverse

/-- ASCII decimal digits of `n`, most significant first (`b"%d" % n`). -/
def natDigits (n : Nat) : Nat → List Nat
  | 0 => []
  | fuel + 1 => if n < 10 then [48 + n] else natDigits (n / 10) fuel ++ [48 + n % 10]

/-- ASCII decimal rendering of a natural number. -/
def natDec (n : Nat) : List Nat := natDigits n (n + 1)

/-- `b"%d" % i` for a signed integer. -/
def intDec (i : Int) : List Nat :=
  if i < 0 then 45 :: natDec i.natAbs else natDec i.toNat

/-- Numeric value of a digit string (digits assumed in `48..57`). -/
def digitsVal (l : List Nat) : Nat := l.foldl (fun a d => a * 10 + (d - 48)) 0

/-- After a digit: accept further digits, with single underscores allowed
only between digits (CPython's rule for `int()` literals). -/
def duAux : List Nat → Bool
  | [] => true
  | b :: rest =>
    if isDigit b then duAux rest
    else if b = 95 then
      match rest with
      | c :: rest2 => isDigit c && duAux rest2
      | [] => false
    else false

/-- A nonempty digit string, with single underscores between digits. -/
def digitsUnd : List Nat → Bool
  | [] => false
  | b :: rest => isDigit b && duAux rest

/-- Parse an unsigned digit group the way `int()` does after the sign. -/
def parseDigitsU (l : List Nat) : Option Nat :=
  if digitsUnd l then some (digitsVal (l.filter isDigit)) else none

/-- Python `int(bytes)`: optional surrounding ASCII whitespace, optional
sign, then a base-10 digit group (underscores between digits allowed).
`none` models the `ValueError`. -/
def signedInt : List Nat → Option Int
  | [] => none
  | b :: rest =>
    if b = 43 then (parseDigitsU rest).map (fun n => (n : Int))
    else if b = 45 then (parseDigitsU rest).map (fun n => -(n : Int))
    else (parseDigitsU (b :: rest)).map (fun n => (n : Int))

def pythonInt (s : List Nat) : Option Int := signedInt (stripWs s)

/-- `socket_file.read(n)` on the modeled stream: a negative count reads to
EOF (file-object semantics); otherwise up to `n` bytes. Returns
`(data, rest)`. -/
def pyRead (n : Int) (s : List Nat) : List Nat × List Nat :=
  if n < 0 then (s, []) else (s.take n.toNat, s.drop n.toNat)

/-- `l[::2]` — every other element starting at index 0. -/
def evens : List α → List α
  | [] => []
  | [x] => [x]
  | x :: _ :: rest => x :: evens rest

/-- Python hashability of a value: `list` and `dict` are unhashable, a
tuple (the `Error` namedtuple) is hashable iff its fields are. -/
def hashable : PyObj → Bool
  | .pylist _ => false
  | .pydict _ => false
  | .pyerr m => hashable m
  | _ => true

/-- `d[k] = v` on an insertion-ordered dict: replace the value at the first
matching key in place, else append. -/
def dictInsert (d : List (PyObj × PyObj)) (k v : PyObj) : List (PyObj × PyObj) :=
  match d with
  | [] => [(k, v)]
  | (k2, v2) :: rest => if k2 = k then (k2, v) :: rest else (k2, v2) :: dictInsert rest k v

/-- `d.get(k)` / `k in d`: first matching entry. -/
def dictGet (d : List (PyObj × PyObj)) (k : PyObj) : Option PyObj :=
  match d with
  | [] => none
  | (k2, v) :: rest => if k2 = k then some v else dictGet rest k

/-- `del d[k]`: drop the (unique) matching entry, keep order of the rest. -/
def dictDelete (d : List (PyObj × PyObj)) (k : PyObj) : List (PyObj × PyObj) :=
  match d with
  | [] => []
  | (k2, v) :: rest => if k2 = k then rest else (k2, v) :: dictDelete rest k

/-- `dict(pairs)`: insert the pairs left to right into an empty dict
(last occurrence of a duplicate key wins, first occurrence's position kept). -/
def dictOfPairs (ps : List (PyObj × PyObj)) : List (PyObj × PyObj) :=
  ps.foldl (fun d kv => dictInsert d kv.1 kv.2) []

/-- First option if present, else the second (`Option.orElse`, spelled out
to keep rewriting simple). -/
def oget (a b : Option PyObj) : Option PyObj :=
  match a with
  | some x => some x
  | none => b

/-- The value of the last pair carrying key `k`, if any. -/
def lastAssoc (ps : List (PyObj × PyObj)) (k : PyObj) : Option PyObj :=
  dictGet ps.reverse k

/-- The flat key/value element sequence of a pair list, as `handle_dict`
reads it off the wire and `_write` puts it on the wire. -/
def interleavePairs : List (PyObj × PyObj) → List PyObj
  | [] => []
  | (k, v) :: ps => k :: v :: interleavePairs ps

def crlf : List Nat := [13, 10]

/-- `b"$%d\r\n" % len(data)` followed by `data + b"\r\n"`: one bulk string
frame (`_write`'s bytes branch). -/
def bulkFrame (bs : List Nat) : List Nat :=
  36 :: natDec bs.length ++ crlf ++ bs ++ crlf

/-- Failures of `_write`: `str.encode("utf-8")` on a lone surrogate, and
`b"-%s\r\n" % message` when the message is not bytes-like (PEP 461: bytes
`%s` accepts only bytes-like operands and raises `TypeError` on `str`). -/
inductive EncErr where
  | unicodeEncodeSurrogate
  | typeErrorPercentS
deriving DecidableEq

/-- UTF-8 bytes of one Unicode scalar value. -/
def utf8Char (c : Nat) : List Nat :=
  if c < 0x80 then [c]
  else if c < 0x800 then [0xC0 + c / 0x40, 0x80 + c % 0x40]
  else if c < 0x10000 then [0xE0 + c / 0x1000, 0x80 + c / 0x40 % 0x40, 0x80 + c % 0x40]
  else [0xF0 + c / 0x40000, 0x80 + c / 0x1000 % 0x40, 0x80 + c / 0x40 % 0x40, 0x80 + c % 0x40]

/-- A code point CPython's UTF-8 encoder accepts (everything a `str` can
hold except the surrogate range). -/
def isScalar (c : Nat) : Bool := c < 0xD800 || (0xDFFF < c && c < 0x110000)

/-- `s.encode("utf-8")`: per-code-point UTF-8, `UnicodeEncodeError` on a
surrogate. -/
def utf8Encode (cps : List Nat) : Except EncErr (List Nat) :=
  if cps.all isScalar then .ok (cps.map utf8Char).flatten
  else .error .unicodeEncodeSurrogate

mutual

/-- `ProtocolHandler._write`, branch for branch:
`str` is re-encoded as UTF-8 and falls through to the bytes branch; bytes
become a bulk frame; int an `:`-frame; `Error` a `-`-frame via
`b"-%s\r\n" % message` (which needs a bytes-like message); list a `*`-frame,
dict a `%`-frame with interleaved pair encodings; `None` is `b"$-1\r\n"`.
Every `PyObj` constructor is matched, so `_write`'s final
`CommandError("unrecognized type")` branch is unreachable here. -/
def pyEncode : PyObj → Except EncErr (List Nat)
  | .pystr cps =>
    match utf8Encode cps with
    | .ok b => .ok (bulkFrame b)
    | .error e => .error e
  | .pybytes bs => .ok (bulkFrame bs)
  | .pyint i => .ok (58 :: intDec i ++ crlf)
  | .pyerr (.pybytes m) => .ok (45 :: m ++ crlf)
  | .pyerr _ => .error .typeErrorPercentS
  | .pynone => .ok [36, 45, 49, 13, 10]
  | .pylist xs =>
    match encList xs with
    | .ok body => .ok (42 :: natDec xs.length ++ crlf ++ body)
    | .error e => .error e
  | .pydict ps =>
    match encPairs ps with
    | .ok body => .ok (37 :: natDec ps.length ++ crlf ++ body)
    | .error e => .error e

/-- The element loop of `_write`'s list branch. -/
def encList : List PyObj → Except EncErr (List Nat)
  | [] => .ok []
  | x :: xs =>
    match pyEncode x, encList xs with
    | .ok b, .ok r => .ok (b ++ r)
    | .error e, _ => .error e
    | _, .error e => .error e

/-- The pair loop of `_write`'s dict branch (key then value, in order). -/
def encPairs : List (PyObj × PyObj) → Except EncErr (List Nat)
  | [] => .ok []
  | (k, v) :: ps =>
    match pyEncode k, pyEncode v, encPairs ps with
    | .ok bk, .ok bv, .ok r => .ok (bk ++ bv ++ r)
    | .error e, _, _ => .error e
    | _, .error e, _ => .error e
    | _, _, .error e => .error e

end

/-- The element loop of `handle_array`/`handle_dict`: run the given
single-value decoder `n` times, threading the stream. -/
def decodeManyF (dec : List Nat → DRes) : Nat → List Nat → LRes
  | 0, s => .lok [] s
  | n + 1, s =>
    match dec s with
    | .dok v rest =>
      match decodeManyF dec n rest with
      | .lok vs r2 => .lok (v :: vs) r2
      | .lerr e r2 => .lerr e r2
    | .derr e rest => .lerr e rest

/-- `ProtocolHandler.handle_request`, with fuel bounding the nesting depth:
read one tag byte (none ⇒ `Disconnect`), then dispatch to the matching
`handle_*` body. Unknown tags raise `CommandError("bad request")`. -/
def decodeF : Nat → List Nat → DRes
  | 0, s => .derr .outOfFuel s
  | _ + 1, [] => .derr .disconnect []
  | fuel + 1, b :: s =>
    if b = 43 then
      -- handle_simple_string
      let p := readLine s
      .dok (.pybytes (rstripCRLF p.1)) p.2
    else if b = 45 then
      -- handle_error
      let p := readLine s
      .dok (.pyerr (.pybytes (rstripCRLF p.1))) p.2
    else if b = 58 then
      -- handle_integer
      let p := readLine s
      match pythonInt (rstripCRLF p.1) with
      | some i => .dok (.pyint i) p.2
      | none => .derr (.valueError (rstripCRLF p.1)) p.2
    else if b = 36 then
      -- handle_string: read N+2 bytes, drop the last two unchecked
      let p := readLine s
      match pythonInt (rstripCRLF p.1) with
      | none => .derr (.valueError (rstripCRLF p.1)) p.2
      | some len =>
        if len = -1 then .dok .pynone p.2
        else
          let q := pyRead (len + 2) p.2
          .dok (.pybytes (q.1.take (q.1.length - 2))) q.2
    else if b = 42 then
      -- handle_array: `range` of a negative count is empty
      let p := readLine s
      match pythonInt (rstripCRLF p.1) with
      | none => .derr (.valueError (rstripCRLF p.1)) p.2
      | some n =>
        match decodeManyF (fun s2 => decodeF fuel s2) n.toNat p.2 with
        | .lok vs r => .dok (.pylist vs) r
        | .lerr e r => .derr e r
    else if b = 37 then
      -- handle_dict: 2N elements, evens zipped with odds, built with dict()
      let p := readLine s
      match pythonInt (rstripCRLF p.1) with
      | none => .derr (.valueError (rstripCRLF p.1)) p.2
      | some n =>
        match decodeManyF (fun s2 => decodeF fuel s2) (n.toNat * 2) p.2 with
        | .lok es r =>
          let pairs := (evens es).zip (evens (es.drop 1))
          if pairs.all (fun kv => hashable kv.1) then .dok (.pydict (dictOfPairs pairs)) r
          else .derr .typeErrorUnhashable r
        | .lerr e r => .derr e r
    else .derr .badRequest s

/-- One decode call on a stream: the fuel `s.length + 1` dominates any
nesting depth a parse of `s` can reach, since every nesting level consumes
at least its tag byte. -/
def decode (s : List Nat) : DRes := decodeF (s.length + 1) s

/-- A byte string that survives the `-`-frame round trip: no `\n` anywhere
(readline stops at the first one) and no trailing `\r`/`\n` (rstripped). -/
def cleanMsg (m : List Nat) : Bool := m.all (fun b => b ≠ 10) && rstripCRLF m == m

/-- Pairwise-distinct keys (what any real Python dict state satisfies). -/
def nodupKeys : List PyObj → Bool
  | [] => true
  | k :: ks => ks.all (fun k2 => !pyBeq k2 k) && nodupKeys ks

mutual

/-- The documented Value shapes whose semantic content the codec round-trips:
no `str` (the encoder accepts it but the decoder never returns one), Error
messages are line-clean `bytes`, dict keys are hashable and unique. -/
def representable : PyObj → Bool
  | .pystr _ => false
  | .pybytes _ => true
  | .pyint _ => true
  | .pyerr (.pybytes m) => cleanMsg m
  | .pyerr _ => false
  | .pynone => true
  | .pylist xs => representableList xs
  | .pydict ps => nodupKeys (ps.map Prod.fst) && representablePairs ps

def representableList : List PyObj → Bool
  | [] => true
  | x :: xs => representable x && representableList xs

def representablePairs : List (PyObj × PyObj) → Bool
  | [] => true
  | (k, v) :: ps => hashable k && representable k && representable v && representablePairs ps

end

mutual

/-- Nesting depth of a value: what the decode fuel has to dominate. -/
def depth : PyObj → Nat
  | .pylist xs => depthList xs + 1
  | .pydict ps => depthPairs ps + 1
  | _ => 1

def depthList : List PyObj → Nat
  | [] => 0
  | x :: xs => max (depth x) (depthList xs)

def depthPairs : List (PyObj × PyObj) → Nat
  | [] => 0
  | (k, v) :: ps => max (max (depth k) (depth v)) (depthPairs ps)

end

/-- The `CommandError` messages `Server.get_response`/`Server.mset` raise. -/
inductive CmdErrMsg where
  | requestMustBeList
  | missingCommand
  | unrecognized (cmd : List Nat)
  | msetOdd
deriving DecidableEq

/-- Server-side exceptions during dispatch (`Server.get_response` and the
command bodies). `commandError` is the only class the dispatch phase
catches; `typeError` covers both wrong positional-argument counts and
unhashable dict keys; `attributeError` is `data[0].upper()` on a non-bytes
head; `unicodeDecodeError` is `command.decode("utf-8")` on invalid UTF-8. -/
inductive SrvErr where
  | commandError (msg : CmdErrMsg)
  | typeError
  | attributeError
  | unicodeDecodeError
deriving DecidableEq

/-- `bytes.split()`: split on runs of ASCII whitespace, dropping empties. -/
def splitWsAux : List Nat → List Nat → List (List Nat)
  | [], acc => if acc.isEmpty then [] else [acc.reverse]
  | b :: rest, acc =>
    if isSpace b then
      if acc.isEmpty then splitWsAux rest [] else acc.reverse :: splitWsAux rest []
    else splitWsAux rest (b :: acc)

def splitWs (bs : List Nat) : List (List Nat) := splitWsAux bs []

/-- `bytes.upper()`: uppercase ASCII letters only. -/
def byteUpper (bs : List Nat) : List Nat :=
  bs.map (fun b => if 97 ≤ b && b ≤ 122 then b - 32 else b)

/-- A UTF-8 continuation byte. -/
def utf8Cont (b : Nat) : Bool := 0x80 ≤ b && b ≤ 0xBF

/-- `bytes.decode("utf-8")` succeeds: strict UTF-8 (no overlongs, no
surrogates, max U+10FFFF), the check behind `command.decode("utf-8")`. -/
def validUtf8 : List Nat → Bool
  | [] => true
  | b :: rest =>
    if b < 0x80 then validUtf8 rest
    else if 0xC2 ≤ b && b ≤ 0xDF then
      match rest with
      | c1 :: r => utf8Cont c1 && validUtf8 r
      | [] => false
    else if b = 0xE0 then
      match rest with
      | c1 :: c2 :: r => (0xA0 ≤ c1 && c1 ≤ 0xBF) && utf8Cont c2 && validUtf8 r
      | _ => false
    else if (0xE1 ≤ b && b ≤ 0xEC) || b = 0xEE || b = 0xEF then
      match rest with
      | c1 :: c2 :: r => utf8Cont c1 && utf8Cont c2 && validUtf8 r
      | _ => false
    else if b = 0xED then
      match rest with
      | c1 :: c2 :: r => (0x80 ≤ c1 && c1 ≤ 0x9F) && utf8Cont c2 && validUtf8 r
      | _ => false
    else if b = 0xF0 then
      match rest with
      | c1 :: c2 :: c3 :: r => (0x90 ≤ c1 && c1 ≤ 0xBF) && utf8Cont c2 && utf8Cont c3 && validUtf8 r
      | _ => false
    else if 0xF1 ≤ b && b ≤ 0xF3 then
      match rest with
      | c1 :: c2 :: c3 :: r => utf8Cont c1 && utf8Cont c2 && utf8Cont c3 && validUtf8 r
      | _ => false
    else if b = 0xF4 then
      match rest with
      | c1 :: c2 :: c3 :: r => (0x80 ≤ c1 && c1 ≤ 0x8F) && utf8Cont c2 && utf8Cont c3 && validUtf8 r
      | _ => false
    else false

def bGET : List Nat := [71, 69, 84]

def bSET : List Nat := [83, 69, 84]

def bDELETE : List Nat := [68, 69, 76, 69, 84, 69]

def bFLUSH : List Nat := [70, 76, 85, 83, 72]

def bMGET : List Nat := [77, 71, 69, 84]

def bMSET : List Nat := [77, 83, 69, 84]

/-- The server's store `self._kv`: an insertion-ordered Python dict. -/
abbrev Store : Type := List (PyObj × PyObj)

/-- `self._kv.get(key)`: the stored value, or `None` when absent (a `get`
reply cannot distinguish a stored `None` from a missing key). -/
def pyGet (kv : Store) (k : PyObj) : PyObj := (dictGet kv k).getD .pynone

/-- `Server.mget`'s comprehension `[self._kv.get(key) for key in keys]`:
raises `TypeError` at the first unhashable key. -/
def mgetLoop (kv : Store) : List PyObj → Except SrvErr (List PyObj)
  | [] => .ok []
  | k :: ks =>
    if hashable k then
      match mgetLoop kv ks with
      | .ok vs => .ok (pyGet kv k :: vs)
      | .error e => .error e
    else .error .typeError

/-- `Server.mset`'s assignment loop `self._kv[k] = v` over the zipped pairs:
stops with `TypeError` at the first unhashable key, keeping the mutations
already applied (`true` in the result flags the crash). -/
def msetLoop (kv : Store) : List (PyObj × PyObj) → Store × Bool
  | [] => (kv, false)
  | (k, v) :: ps => if hashable k then msetLoop (dictInsert kv k v) ps else (kv, true)

/-- `zip(items[::2], items[1::2])`. -/
def msetPairs (items : List PyObj) : List (PyObj × PyObj) :=
  (evens items).zip (evens (items.drop 1))

/-- The command table lookup plus the command bodies
(`Server.get/set/delete/flush/mget/mset`). Fixed-arity handlers raise
`TypeError` when called with the wrong number of positional arguments;
only `Server.mset` checks its argument count itself, with `CommandError`.
Returns the (possibly mutated) store and the reply or exception. -/
def runCommand (kv : Store) (cmd : List Nat) (args : List PyObj) : Store × Except SrvErr PyObj :=
  if cmd = bGET then
    match args with
    | [k] => if hashable k then (kv, .ok (pyGet kv k)) else (kv, .error .typeError)
    | _ => (kv, .error .typeError)
  else if cmd = bSET then
    match args with
    | [k, v] => if hashable k then (dictInsert kv k v, .ok (.pyint 1)) else (kv, .error .typeError)
    | _ => (kv, .error .typeError)
  else if cmd = bDELETE then
    match args with
    | [k] =>
      if hashable k then
        match dictGet kv k with
        | some _ => (dictDelete kv k, .ok (.pyint 1))
        | none => (kv, .ok (.pyint 0))
      else (kv, .error .typeError)
    | _ => (kv, .error .typeError)
  else if cmd = bFLUSH then
    match args with
    | [] => ([], .ok (.pyint kv.length))
    | _ => (kv, .error .typeError)
  else if cmd = bMGET then
    match mgetLoop kv args with
    | .ok vs => (kv, .ok (.pylist vs))
    | .error e => (kv, .error e)
  else if cmd = bMSET then
    if args.length % 2 ≠ 0 then (kv, .error (.commandError .msetOdd))
    else
      let r := msetLoop kv (msetPairs args)
      if r.2 then (r.1, .error .typeError) else (r.1, .ok (.pyint (args.length / 2)))
  else (kv, .error (.commandError (.unrecognized cmd)))

/-- Token phase of `Server.get_response` once a list is in hand:
`data[0].upper()` (AttributeError on a non-bytes head), then
`command.decode("utf-8")` (comparison against the ASCII table names is done
on the raw bytes, which is equivalent because UTF-8 decoding is injective). -/
def dispatchTokens (kv : Store) : List PyObj → Store × Except SrvErr PyObj
  | [] => (kv, .error (.commandError .missingCommand))
  | h :: args =>
    match h with
    | .pybytes bs =>
      let cmd := byteUpper bs
      if validUtf8 cmd then runCommand kv cmd args
      else (kv, .error .unicodeDecodeError)
    | _ => (kv, .error .attributeError)

/-- `Server.get_response`: a list request is used as is, a bytes request is
whitespace-split, anything else raises
`CommandError("Request must be list or simple string.")`. -/
def getResponse (kv : Store) (data : PyObj) : Store × Except SrvErr PyObj :=
  match data with
  | .pylist xs => dispatchTokens kv xs
  | .pybytes bs => dispatchTokens kv ((splitWs bs).map .pybytes)
  | _ => (kv, .error (.commandError .requestMustBeList))

/-- Code points of a Lean string (used to spell out `str(exc)` texts). -/
def strCps (s : String) : List Nat := s.toList.map Char.toNat

/-- `str(exc)` for a decode-phase exception. The exact text is never
observable on the wire: encoding `Error(str(exc))` always raises `TypeError`
first (see `connStep`). `valueError`'s text approximates CPython's
`repr` of the offending bytes by their raw values. -/
def derrMsgCps : DErr → List Nat
  | .disconnect => []
  | .badRequest => strCps "bad request"
  | .valueError content => strCps "invalid literal for int() with base 10: " ++ content
  | .typeErrorUnhashable => strCps "unhashable type"
  | .outOfFuel => []

/-- `str(exc)` for a dispatch-phase `CommandError`. As with `derrMsgCps`,
never observable: the Error reply write crashes first. `unrecognized`
appends the command's bytes where CPython shows the decoded string. -/
def cmdErrMsgCps : CmdErrMsg → List Nat
  | .requestMustBeList => strCps "Request must be list or simple string."
  | .missingCommand => strCps "Missing command"
  | .unrecognized cmd => strCps "Unrecognized command: " ++ cmd
  | .msetOdd => strCps "MSET requires an even number of arguments"

/-- Observable outcome of one iteration of the `while True` loop in
`Server.connection_handler`: a reply written and the loop continuing, the
loop ending silently on `Disconnect`, or an uncaught exception killing the
handler (nothing written, connection dead). -/
inductive StepOut where
  | reply (out : List Nat) (kv : Store) (rest : List Nat)
  | closedSilent (rest : List Nat)
  | crashed (rest : List Nat)
deriving DecidableEq

/-- One iteration of `Server.connection_handler`: decode; on `Disconnect`
break silently; on any other decode exception try to write
`Error(str(exc))`; otherwise dispatch, converting only `CommandError` to an
`Error(str(exc))` reply; write the reply. A write of an `Error` whose
message is a `str` raises `TypeError` inside `_write` (PEP 461), which no
handler catches — the step crashes with nothing written. -/
def connStep (kv : Store) (s : List Nat) : StepOut :=
  match decode s with
  | .derr .disconnect rest => .closedSilent rest
  | .derr e rest =>
    match pyEncode (.pyerr (.pystr (derrMsgCps e))) with
    | .ok out => .reply out kv rest
    | .error _ => .crashed rest
  | .dok data rest =>
    match getResponse kv data with
    | (kv2, .ok resp) =>
      match pyEncode resp with
      | .ok out => .reply out kv2 rest
      | .error _ => .crashed rest
    | (kv2, .error (.commandError m)) =>
      match pyEncode (.pyerr (.pystr (cmdErrMsgCps m))) with
      | .ok out => .reply out kv2 rest
      | .error _ => .crashed rest
    | (_, .error _) => .crashed rest

/-! ## Basic lemmas on the byte-level helpers -/

theorem dropWhile_of_all {p : Nat → Bool} {l : List Nat} (h : ∀ b ∈ l, p b = false) :
    l.dropWhile p = l := by
  cases l with
  | nil => rfl
  | cons a t => simp [List.dropWhile_cons, h a (List.mem_cons_self a t)]

theorem rstripCRLF_eq_self {l : List Nat} (h : ∀ b ∈ l, isCRLF b = false) :
    rstripCRLF l = l := by
  unfold rstripCRLF
  rw [dropWhile_of_all (fun b hb => h b (List.mem_reverse.mp hb)), List.reverse_reverse]

theorem rstripCRLF_append_crlf (l : List Nat) : rstripCRLF (l ++ [13, 10]) = rstripCRLF l := by
  unfold rstripCRLF
  rw [List.reverse_append]
  simp [List.dropWhile_cons, isCRLF]

theorem stripWs_eq_self {l : List Nat} (h : ∀ b ∈ l, isSpace b = false) :
    stripWs l = l := by
  unfold stripWs
  rw [dropWhile_of_all h, dropWhile_of_all (fun b hb => h b (List.mem_reverse.mp hb)),
    List.reverse_reverse]

theorem readLine_append {pre : List Nat} (h : ∀ b ∈ pre, b ≠ 10) (tail : List Nat) :
    readLine (pre ++ 10 :: tail) = (pre ++ [10], tail) := by
  induction pre with
  | nil => simp [readLine]
  | cons a t ih =>
    have ha : a ≠ 10 := h a (List.mem_cons_self a t)
    simp [readLine, ha, ih (fun b hb => h b (List.mem_cons_of_mem a hb))]

/-- Reading a header line `pre ++ b"\r\n"` when `pre` has no `\n`. -/
theorem readLine_header {pre : List Nat} (h : ∀ b ∈ pre, b ≠ 10) (tail : List Nat) :
    readLine (pre ++ 13 :: 10 :: tail) = (pre ++ [13, 10], tail) := by
  have h2 : ∀ b ∈ pre ++ [13], b ≠ 10 := by
    intro b hb
    rcases List.mem_append.mp hb with hb1 | hb2
    · exact h b hb1
    · simp only [List.mem_singleton] at hb2
      omega
  have := readLine_append h2 tail
  simpa [List.append_assoc] using this

/-! ## Decimal rendering and `int()` parsing -/

theorem natDigits_spec : ∀ (fuel n : Nat), n < 10 ^ fuel → fuel ≠ 0 →
    natDigits n fuel ≠ [] ∧ (∀ b ∈ natDigits n fuel, 48 ≤ b ∧ b ≤ 57) ∧
      digitsVal (natDigits n fuel) = n := by
  intro fuel
  induction fuel with
  | zero => intro n _ hf; exact absurd rfl hf
  | succ f ih =>
    intro n hn _
    by_cases hsmall : n < 10
    · refine ⟨by rw [natDigits, if_pos hsmall]; simp, ?_, ?_⟩
      · intro b hb
        rw [natDigits, if_pos hsmall] at hb
        simp only [List.mem_singleton] at hb
        omega
      · rw [natDigits, if_pos hsmall]
        unfold digitsVal
        simp only [List.foldl_cons, List.foldl_nil]
        omega
    · have hf : f ≠ 0 := by
        rintro rfl
        have h10 : (10 : Nat) ^ (0 + 1) = 10 := by norm_num
        rw [h10] at hn
        omega
      have hq : n / 10 < 10 ^ f := by
        have h1 : n < 10 ^ f * 10 := by
          calc n < 10 ^ (f + 1) := hn
          _ = 10 ^ f * 10 := by ring
        omega
      obtain ⟨hne, hdig, hval⟩ := ih (n / 10) hq hf
      rw [natDigits, if_neg hsmall]
      refine ⟨by simp, ?_, ?_⟩
      · intro b hb
        rcases List.mem_append.mp hb with hb1 | hb2
        · exact hdig b hb1
        · simp only [List.mem_singleton] at hb2
          have : n % 10 < 10 := Nat.mod_lt n (by omega)
          omega
      · unfold digitsVal
        rw [List.foldl_append]
        have : digitsVal (natDigits (n / 10) f) = n / 10 := hval
        unfold digitsVal at this
        rw [this]
        simp only [List.foldl_cons, List.foldl_nil]
        omega

theorem natDec_spec (n : Nat) :
    natDec n ≠ [] ∧ (∀ b ∈ natDec n, 48 ≤ b ∧ b ≤ 57) ∧ digitsVal (natDec n) = n := by
  apply natDigits_spec
  · calc n < 10 ^ n := Nat.lt_pow_self (by omega) n
    _ ≤ 10 ^ (n + 1) := Nat.pow_le_pow_right (by omega) (by omega)
  · omega

theorem duAux_of_digits {l : List Nat} (h : ∀ b ∈ l, isDigit b = true) :
    duAux l = true := by
  induction l with
  | nil => rfl
  | cons a t ih =>
    rw [duAux.eq_def]
    simp only [h a (List.mem_cons_self a t), if_pos]
    exact ih (fun b hb => h b (List.mem_cons_of_mem a hb))

theorem parseDigitsU_of_digits {l : List Nat} (hne : l ≠ []) (h : ∀ b ∈ l, isDigit b = true) :
    parseDigitsU l = some (digitsVal l) := by
  cases l with
  | nil => exact absurd rfl hne
  | cons a t =>
    have hd : digitsUnd (a :: t) = true := by
      unfold digitsUnd
      simp [h a (List.mem_cons_self a t),
        duAux_of_digits (fun b hb => h b (List.mem_cons_of_mem a hb))]
    unfold parseDigitsU
    rw [hd, if_pos rfl, List.filter_eq_self.mpr h]

theorem digit_not_space {b : Nat} (h : 48 ≤ b ∧ b ≤ 57) : isSpace b = false := by
  unfold isSpace
  simp only [Bool.or_eq_false_iff, decide_eq_false_iff_not]
  omega

theorem digit_not_crlf {b : Nat} (h : 48 ≤ b ∧ b ≤ 57) : isCRLF b = false := by
  unfold isCRLF
  simp only [Bool.or_eq_false_iff, decide_eq_false_iff_not]
  omega

theorem digits_isDigit {b : Nat} (h : 48 ≤ b ∧ b ≤ 57) : isDigit b = true := by
  unfold isDigit
  simp only [Bool.and_eq_true, decide_eq_true_eq]
  omega

theorem signedInt_digits {l : List Nat} (hne : l ≠ []) (hdig : ∀ b ∈ l, 48 ≤ b ∧ b ≤ 57) :
    signedInt l = some ((digitsVal l : Nat) : Int) := by
  cases l with
  | nil => exact absurd rfl hne
  | cons a t =>
    have ha : 48 ≤ a ∧ a ≤ 57 := hdig a (List.mem_cons_self a t)
    simp only [signedInt]
    rw [if_neg (by omega), if_neg (by omega)]
    rw [parseDigitsU_of_digits (by simp) (fun b hb => digits_isDigit (hdig b hb))]
    rfl

theorem pythonInt_natDec (n : Nat) : pythonInt (natDec n) = some (n : Int) := by
  obtain ⟨hne, hdig, hval⟩ := natDec_spec n
  unfold pythonInt
  rw [stripWs_eq_self (fun b hb => digit_not_space (hdig b hb)), signedInt_digits hne hdig, hval]

theorem intDec_bytes (i : Int) : ∀ b ∈ intDec i, b = 45 ∨ (48 ≤ b ∧ b ≤ 57) := by
  intro b hb
  unfold intDec at hb
  split at hb
  · rcases List.mem_cons.mp hb with hb1 | hb2
    · exact Or.inl hb1
    · exact Or.inr ((natDec_spec _).2.1 b hb2)
  · exact Or.inr ((natDec_spec _).2.1 b hb)

theorem pythonInt_intDec (i : Int) : pythonInt (intDec i) = some i := by
  by_cases hneg : i < 0
  · obtain ⟨hne, hdig, hval⟩ := natDec_spec i.natAbs
    have hd : intDec i = 45 :: natDec i.natAbs := by unfold intDec; rw [if_pos hneg]
    unfold pythonInt
    rw [hd, stripWs_eq_self (fun b hb => by
      rcases List.mem_cons.mp hb with hb1 | hb2
      · subst hb1
        rfl
      · exact digit_not_space (hdig b hb2))]
    simp only [signedInt, if_true, if_false]
    rw [parseDigitsU_of_digits hne (fun b hb => digits_isDigit (hdig b hb)), hval]
    have hcast : -((i.natAbs : Nat) : Int) = i := by omega
    simp [hcast]
    rw [abs_of_neg hneg]
    ring
  · have hd : intDec i = natDec i.toNat := by unfold intDec; rw [if_neg hneg]
    rw [hd, pythonInt_natDec]
    congr 1
    omega

/-- The header-line combination every numeric decode branch performs:
`readline` then `rstrip(b"\r\n")` then `int()`, on `b"%d" % n ++ b"\r\n"`. -/
theorem header_nat (n : Nat) (tail : List Nat) :
    readLine (natDec n ++ 13 :: 10 :: tail) = (natDec n ++ [13, 10], tail) ∧
      pythonInt (rstripCRLF (natDec n ++ [13, 10])) = some (n : Int) := by
  obtain ⟨hne, hdig, hval⟩ := natDec_spec n
  constructor
  · exact readLine_header (fun b hb => by have := hdig b hb; omega) tail
  · rw [rstripCRLF_append_crlf, rstripCRLF_eq_self (fun b hb => digit_not_crlf (hdig b hb))]
    exact pythonInt_natDec n

/-! ## Python-dict lemmas -/

theorem dictGet_dictInsert (d : Store) (k v k2 : PyObj) :
    dictGet (dictInsert d k v) k2 = if k = k2 then some v else dictGet d k2 := by
  induction d with
  | nil => simp [dictInsert, dictGet]
  | cons p rest ih =>
    obtain ⟨k3, v3⟩ := p
    by_cases h3 : k3 = k
    · subst h3
      by_cases h2 : k3 = k2 <;> simp [dictInsert, dictGet, h2]
    · by_cases h2 : k3 = k2
      · subst h2
        have : ¬ k = k3 := fun he => h3 he.symm
        simp [dictInsert, dictGet, h3, this]
      · simp [dictInsert, dictGet, h3, h2, ih]

theorem dictGet_eq_none {d : Store} {k : PyObj} (h : ∀ kv ∈ d, kv.1 ≠ k) :
    dictGet d k = none := by
  induction d with
  | nil => rfl
  | cons p rest ih =>
    obtain ⟨k2, v⟩ := p
    have hne : k2 ≠ k := h (k2, v) (List.mem_cons_self _ _)
    simp only [dictGet, if_neg hne]
    exact ih (fun kv hkv => h kv (List.mem_cons_of_mem _ hkv))

theorem dictInsert_absent {d : Store} {k : PyObj} (v : PyObj) (h : dictGet d k = none) :
    dictInsert d k v = d ++ [(k, v)] := by
  induction d with
  | nil => rfl
  | cons p rest ih =>
    obtain ⟨k2, v2⟩ := p
    by_cases h2 : k2 = k
    · subst h2
      simp [dictGet] at h
    · simp only [dictGet, if_neg h2] at h
      simp [dictInsert, h2, ih h]

theorem dictGet_append (d1 d2 : Store) (k : PyObj) :
    dictGet (d1 ++ d2) k = oget (dictGet d1 k) (dictGet d2 k) := by
  induction d1 with
  | nil => simp [dictGet, oget]
  | cons p rest ih =>
    obtain ⟨k2, v⟩ := p
    by_cases h2 : k2 = k <;> simp [dictGet, h2, oget, ih]

theorem nodupKeys_cons {k : PyObj} {ks : List PyObj} (h : nodupKeys (k :: ks) = true) :
    (∀ k2 ∈ ks, k2 ≠ k) ∧ nodupKeys ks = true := by
  unfold nodupKeys at h
  simp only [Bool.and_eq_true, List.all_eq_true, Bool.not_eq_true'] at h
  refine ⟨fun k2 hk2 he => ?_, h.2⟩
  have hb := h.1 k2 hk2
  rw [(pyBeqIff k2 k).mpr he] at hb
  exact absurd hb (by simp)

theorem foldl_dictInsert_absent (ps : List (PyObj × PyObj)) :
    ∀ d : Store, (∀ kv ∈ ps, dictGet d kv.1 = none) → nodupKeys (ps.map Prod.fst) = true →
      ps.foldl (fun d kv => dictInsert d kv.1 kv.2) d = d ++ ps := by
  induction ps with
  | nil => intro d _ _; simp
  | cons p rest ih =>
    intro d habs hnd
    obtain ⟨k, v⟩ := p
    obtain ⟨hklater, hndrest⟩ := nodupKeys_cons (by simpa using hnd)
    have h1 : dictGet d k = none := habs (k, v) (List.mem_cons_self _ _)
    have h2 : ∀ kv ∈ rest, dictGet (d ++ [(k, v)]) kv.1 = none := by
      intro kv hkv
      rw [dictGet_append, habs kv (List.mem_cons_of_mem _ hkv)]
      have hne : kv.1 ≠ k := hklater kv.1 (List.mem_map_of_mem Prod.fst hkv)
      simp [dictGet, oget, Ne.symm hne]
    simp only [List.foldl_cons, dictInsert_absent v h1, ih (d ++ [(k, v)]) h2 hndrest,
      List.append_assoc, List.singleton_append]

theorem dictOfPairs_self {ps : List (PyObj × PyObj)}
    (hnd : nodupKeys (ps.map Prod.fst) = true) : dictOfPairs ps = ps := by
  unfold dictOfPairs
  rw [foldl_dictInsert_absent ps [] (fun kv _ => rfl) hnd]
  rfl

theorem dictGet_foldl_insert (ps : List (PyObj × PyObj)) :
    ∀ (d : Store) (k : PyObj),
      dictGet (ps.foldl (fun d kv => dictInsert d kv.1 kv.2) d) k
        = oget (lastAssoc ps k) (dictGet d k) := by
  induction ps with
  | nil => intro d k; simp [lastAssoc, dictGet, oget]
  | cons p rest ih =>
    intro d k
    obtain ⟨k1, v1⟩ := p
    have hlast : lastAssoc ((k1, v1) :: rest) k
        = oget (lastAssoc rest k) (if k1 = k then some v1 else none) := by
      unfold lastAssoc
      rw [show ((k1, v1) :: rest).reverse = rest.reverse ++ [(k1, v1)] by simp,
        dictGet_append]
      rfl
    rw [List.foldl_cons, ih (dictInsert d k1 v1) k, dictGet_dictInsert, hlast]
    cases lastAssoc rest k with
    | some x => simp [oget]
    | none => by_cases h1 : k1 = k <;> simp [oget, h1]

theorem dictGet_dictDelete_ne (d : Store) (k k2 : PyObj) (h : k2 ≠ k) :
    dictGet (dictDelete d k) k2 = dictGet d k2 := by
  induction d with
  | nil => rfl
  | cons p rest ih =>
    obtain ⟨k3, v⟩ := p
    by_cases h3 : k3 = k
    · subst h3
      have : ¬ k3 = k2 := fun he => h he.symm
      simp [dictDelete, dictGet, this]
    · by_cases h2 : k3 = k2
      · subst h2
        simp [dictDelete, dictGet, h3]
      · simp [dictDelete, dictGet, h3, h2, ih]

theorem dictGet_dictDelete_self (d : Store) (k : PyObj)
    (hnd : nodupKeys (d.map Prod.fst) = true) : dictGet (dictDelete d k) k = none := by
  induction d with
  | nil => rfl
  | cons p rest ih =>
    obtain ⟨k2, v⟩ := p
    obtain ⟨hklater, hndrest⟩ := nodupKeys_cons (by simpa using hnd)
    by_cases h2 : k2 = k
    · subst h2
      simp only [dictDelete, if_pos rfl]
      exact dictGet_eq_none (fun kv hkv => hklater kv.1 (List.mem_map_of_mem Prod.fst hkv))
    · simp [dictDelete, dictGet, h2, ih hndrest]

/-! ## Interleaving and `[::2]` lemmas -/

theorem evens_interleave (ps : List (PyObj × PyObj)) :
    evens (interleavePairs ps) = ps.map Prod.fst := by
  induction ps with
  | nil => rfl
  | cons p rest ih =>
    obtain ⟨k, v⟩ := p
    simp [interleavePairs, evens, ih]

theorem evens_drop_interleave (ps : List (PyObj × PyObj)) :
    evens ((interleavePairs ps).drop 1) = ps.map Prod.snd := by
  induction ps with
  | nil => rfl
  | cons p rest ih =>
    obtain ⟨k, v⟩ := p
    cases rest with
    | nil => rfl
    | cons q rest2 =>
      obtain ⟨k2, v2⟩ := q
      simp only [interleavePairs, List.drop_succ_cons, List.drop_zero] at ih ⊢
      simp [evens, ih]

theorem length_interleave (ps : List (PyObj × PyObj)) :
    (interleavePairs ps).length = 2 * ps.length := by
  induction ps with
  | nil => rfl
  | cons p rest ih =>
    obtain ⟨k, v⟩ := p
    simp [interleavePairs, ih]
    omega

theorem zip_map_fst_snd (ps : List (PyObj × PyObj)) :
    (ps.map Prod.fst).zip (ps.map Prod.snd) = ps := by
  induction ps with
  | nil => rfl
  | cons p rest ih => simp [ih]

theorem header_int (i : Int) (tail : List Nat) :
    readLine (intDec i ++ 13 :: 10 :: tail) = (intDec i ++ [13, 10], tail) ∧
      pythonInt (rstripCRLF (intDec i ++ [13, 10])) = some i := by
  constructor
  · exact readLine_header (fun b hb => by rcases intDec_bytes i b hb with h | h <;> omega) tail
  · rw [rstripCRLF_append_crlf, rstripCRLF_eq_self (fun b hb => by
      rcases intDec_bytes i b hb with h | h <;> simp [isCRLF] <;> omega)]
    exact pythonInt_intDec i

/-! ## Representability, depth and encoder structure -/

theorem representableList_cons {x : PyObj} {xs : List PyObj}
    (h : representableList (x :: xs) = true) :
    representable x = true ∧ representableList xs = true := by
  unfold representableList at h
  simpa [Bool.and_eq_true] using h

theorem representablePairs_cons {k v : PyObj} {ps : List (PyObj × PyObj)}
    (h : representablePairs ((k, v) :: ps) = true) :
    hashable k = true ∧ representable k = true ∧ representable v = true ∧
      representablePairs ps = true := by
  unfold representablePairs at h
  simpa [Bool.and_eq_true, and_assoc] using h

theorem representableList_interleave {ps : List (PyObj × PyObj)}
    (h : representablePairs ps = true) :
    representableList (interleavePairs ps) = true := by
  induction ps with
  | nil => rfl
  | cons p rest ih =>
    obtain ⟨k, v⟩ := p
    obtain ⟨_, hk, hv, hrest⟩ := representablePairs_cons h
    simp [interleavePairs, representableList, hk, hv, ih hrest]

theorem pairs_hashable {ps : List (PyObj × PyObj)} (h : representablePairs ps = true) :
    ps.all (fun kv => hashable kv.1) = true := by
  induction ps with
  | nil => rfl
  | cons p rest ih =>
    obtain ⟨k, v⟩ := p
    obtain ⟨hk, _, _, hrest⟩ := representablePairs_cons h
    simp [List.all_cons, hk, ih hrest]

theorem cleanMsg_spec {m : List Nat} (h : cleanMsg m = true) :
    (∀ b ∈ m, b ≠ 10) ∧ rstripCRLF m = m := by
  unfold cleanMsg at h
  simp only [Bool.and_eq_true, List.all_eq_true, decide_eq_true_eq, beq_iff_eq] at h
  exact h

theorem depth_pos (v : PyObj) : 1 ≤ depth v := by
  cases v <;> simp [depth]

theorem depthList_interleave (ps : List (PyObj × PyObj)) :
    depthList (interleavePairs ps) = depthPairs ps := by
  induction ps with
  | nil => rfl
  | cons p rest ih =>
    obtain ⟨k, v⟩ := p
    simp only [interleavePairs, depthList, depthPairs, ih]
    omega

theorem encPairs_eq_encList (ps : List (PyObj × PyObj)) :
    encPairs ps = encList (interleavePairs ps) := by
  induction ps with
  | nil => rfl
  | cons p rest ih =>
    obtain ⟨k, v⟩ := p
    simp only [encPairs, interleavePairs, encList, ← ih]
    cases pyEncode k <;> cases pyEncode v <;> cases encPairs rest <;>
      simp [List.append_assoc]

/-! ## Decoding each encoded frame shape -/

/-- The `$` branch never checks the two bytes after the payload: any `c1 c2`
work (`handle_string` reads `N+2` bytes and drops the last two). -/
theorem decodeF_dollar (f : Nat) (payload : List Nat) (c1 c2 : Nat) (rest : List Nat) :
    decodeF (f + 1) (36 :: (natDec payload.length ++ 13 :: 10 :: (payload ++ c1 :: c2 :: rest)))
      = DRes.dok (.pybytes payload) rest := by
  obtain ⟨hline, hint⟩ := header_nat payload.length (payload ++ c1 :: c2 :: rest)
  have hm1 : ¬ ((payload.length : Int) = -1) := by omega
  have hnn : ¬ ((payload.length : Int) + 2 < 0) := by omega
  have htn : ((payload.length : Int) + 2).toNat = payload.length + 2 := by omega
  have htake : (payload ++ c1 :: c2 :: rest).take (payload.length + 2) = payload ++ [c1, c2] := by
    rw [List.take_append]
    rfl
  have hdrop : (payload ++ c1 :: c2 :: rest).drop (payload.length + 2) = rest := by
    rw [List.drop_append]
    rfl
  have htl : (payload ++ [c1, c2]).take payload.length = payload := List.take_left payload [c1, c2]
  have hlen : (payload ++ [c1, c2]).length - 2 = payload.length := by simp
  simp [decodeF, hline, hint, hm1, pyRead, hnn, htn, htake, hdrop, hlen, htl]

theorem decodeF_colon (f : Nat) (i : Int) (rest : List Nat) :
    decodeF (f + 1) (58 :: (intDec i ++ 13 :: 10 :: rest)) = DRes.dok (.pyint i) rest := by
  obtain ⟨hline, hint⟩ := header_int i rest
  simp [decodeF, hline, hint]

theorem decodeF_minus (f : Nat) (m : List Nat) (rest : List Nat) (hclean : cleanMsg m = true) :
    decodeF (f + 1) (45 :: (m ++ 13 :: 10 :: rest)) = DRes.dok (.pyerr (.pybytes m)) rest := by
  obtain ⟨h10, hstrip⟩ := cleanMsg_spec hclean
  have hline := readLine_header h10 rest
  simp [decodeF, hline, rstripCRLF_append_crlf, hstrip]

theorem decodeF_null (f : Nat) (rest : List Nat) :
    decodeF (f + 1) (36 :: (45 :: 49 :: 13 :: 10 :: rest)) = DRes.dok .pynone rest := by
  have hline : readLine (45 :: 49 :: 13 :: 10 :: rest) = ([45, 49, 13, 10], rest) := by
    have hm : ∀ b ∈ [45, 49, 13], b ≠ 10 := by decide
    simpa using readLine_append hm rest
  have hint : pythonInt (rstripCRLF [45, 49, 13, 10]) = some (-1) := by decide
  simp [decodeF, hline, hint]

/-! ## The round-trip induction -/

/-- Element loop of the round trip, parametrized by the induction hypothesis
for single values at the current fuel. -/
theorem encList_decodeMany (f : Nat)
    (IH : ∀ v : PyObj, representable v = true → depth v ≤ f →
      ∃ b, pyEncode v = Except.ok b ∧ depth v ≤ b.length ∧
        ∀ rest, decodeF f (b ++ rest) = DRes.dok v rest) :
    ∀ xs : List PyObj, representableList xs = true → depthList xs ≤ f →
      ∃ body, encList xs = Except.ok body ∧ depthList xs ≤ body.length ∧
        ∀ rest, decodeManyF (fun s2 => decodeF f s2) xs.length (body ++ rest)
          = LRes.lok xs rest := by
  intro xs
  induction xs with
  | nil =>
    intro _ _
    exact ⟨[], rfl, by simp [depthList], fun rest => by simp [decodeManyF]⟩
  | cons x t ih =>
    intro hrep hdep
    obtain ⟨hx, ht⟩ := representableList_cons hrep
    simp only [depthList] at hdep
    obtain ⟨bx, hex, hlx, hdecx⟩ := IH x hx (by omega)
    obtain ⟨bt, het, hlt, hdect⟩ := ih ht (by omega)
    refine ⟨bx ++ bt, ?_, ?_, ?_⟩
    · simp only [encList, hex, het]
    · simp only [depthList, List.length_append]
      omega
    · intro rest
      have hx2 : decodeF f ((bx ++ bt) ++ rest) = DRes.dok x (bt ++ rest) := by
        rw [List.append_assoc]
        exact hdecx (bt ++ rest)

      simp only [List.length_cons, decodeManyF, hx2, hdect rest]

/-- The round trip at the `decodeF` level: encoding any representable value
succeeds, the encoding is at least as long as the value is deep, and
decoding it with enough fuel returns exactly the value and the untouched
rest of the stream. -/
theorem decodeF_pyEncode : ∀ (fuel : Nat) (v : PyObj), representable v = true →
    depth v ≤ fuel →
    ∃ b, pyEncode v = Except.ok b ∧ depth v ≤ b.length ∧
      ∀ rest, decodeF fuel (b ++ rest) = DRes.dok v rest := by
  intro fuel
  induction fuel with
  | zero =>
    intro v _ hd
    have := depth_pos v
    omega
  | succ f ih =>
    intro v hrep hdep
    cases v with
    | pystr cps => simp [representable] at hrep
    | pybytes bs =>
      refine ⟨bulkFrame bs, rfl, by simp [bulkFrame, depth], fun rest => ?_⟩
      have hs : bulkFrame bs ++ rest
          = 36 :: (natDec bs.length ++ 13 :: 10 :: (bs ++ 13 :: 10 :: rest)) := by
        simp [bulkFrame, crlf]
      rw [hs, decodeF_dollar]
    | pyint i =>
      refine ⟨58 :: intDec i ++ crlf, rfl, by simp [depth], fun rest => ?_⟩
      have hs : (58 :: intDec i ++ crlf) ++ rest = 58 :: (intDec i ++ 13 :: 10 :: rest) := by
        simp [crlf]
      rw [hs, decodeF_colon]
    | pyerr m =>
      cases m with
      | pybytes bs =>
        have hclean : cleanMsg bs = true := by
          simpa [representable] using hrep
        refine ⟨45 :: bs ++ crlf, rfl, by simp [depth], fun rest => ?_⟩
        have hs : (45 :: bs ++ crlf) ++ rest = 45 :: (bs ++ 13 :: 10 :: rest) := by
          simp [crlf]
        rw [hs, decodeF_minus f bs rest hclean]
      | pystr cps => simp [representable] at hrep
      | pyint i => simp [representable] at hrep
      | pyerr m2 => simp [representable] at hrep
      | pynone => simp [representable] at hrep
      | pylist xs => simp [representable] at hrep
      | pydict ps => simp [representable] at hrep
    | pynone =>
      refine ⟨[36, 45, 49, 13, 10], rfl, by simp [depth], fun rest => ?_⟩
      exact decodeF_null f rest
    | pylist xs =>
      have hxs : representableList xs = true := by simpa [representable] using hrep
      simp only [depth] at hdep
      obtain ⟨body, hbody, hblen, hdec⟩ := encList_decodeMany f ih xs hxs (by omega)
      refine ⟨42 :: natDec xs.length ++ crlf ++ body, ?_, ?_, fun rest => ?_⟩
      · simp only [pyEncode, hbody]
      · simp only [depth, List.length_cons, List.length_append]
        omega
      · obtain ⟨hline, hint⟩ := header_nat xs.length (body ++ rest)
        have hs : (42 :: natDec xs.length ++ crlf ++ body) ++ rest
            = 42 :: (natDec xs.length ++ 13 :: 10 :: (body ++ rest)) := by
          simp [crlf]
        have htn : ((xs.length : Int)).toNat = xs.length := by omega
        rw [hs]
        simp [decodeF, hline, hint, htn, hdec rest]
    | pydict ps =>
      have hps : nodupKeys (ps.map Prod.fst) = true ∧ representablePairs ps = true := by
        simpa [representable, Bool.and_eq_true] using hrep
      simp only [depth] at hdep
      have hil : representableList (interleavePairs ps) = true :=
        representableList_interleave hps.2
      have hid : depthList (interleavePairs ps) ≤ f := by
        rw [depthList_interleave]
        omega
      obtain ⟨body, hbody, hblen, hdec⟩ := encList_decodeMany f ih (interleavePairs ps) hil hid
      refine ⟨37 :: natDec ps.length ++ crlf ++ body, ?_, ?_, fun rest => ?_⟩
      · simp only [pyEncode, encPairs_eq_encList, hbody]
      · simp only [depth, List.length_cons, List.length_append]
        have := depthList_interleave ps
        omega
      · obtain ⟨hline, hint⟩ := header_nat ps.length (body ++ rest)
        have hs : (37 :: natDec ps.length ++ crlf ++ body) ++ rest
            = 37 :: (natDec ps.length ++ 13 :: 10 :: (body ++ rest)) := by
          simp [crlf]
        have htn : ps.length * 2 = (interleavePairs ps).length := by
          rw [length_interleave]
          omega
        have hmany : decodeManyF (fun s2 => decodeF f s2) (ps.length * 2)
            (body ++ rest) = LRes.lok (interleavePairs ps) rest := by
          rw [htn]
          exact hdec rest
        have hkeys : evens (interleavePairs ps) = ps.map Prod.fst := evens_interleave ps
        have hvals : evens ((interleavePairs ps).drop 1) = ps.map Prod.snd :=
          evens_drop_interleave ps
        have hz2 : (evens (interleavePairs ps)).zip (evens ((interleavePairs ps).drop 1)) = ps := by
          rw [hkeys, hvals, zip_map_fst_snd]
        have hz3 : (evens (interleavePairs ps)).zip (evens (interleavePairs ps).tail) = ps := by
          simpa [List.drop_one] using hz2
        have hhash : ps.all (fun kv => hashable kv.1) = true := pairs_hashable hps.2
        rw [hs]
        simp [decodeF, hline, hint, hmany, hz2, hz3, hhash, dictOfPairs_self hps.1]

/-- The round trip at the `decode` level: `decode`'s fuel `length + 1`
dominates the value's depth because each nesting level of the encoding
contributes at least one byte. -/
theorem decode_pyEncode (v : PyObj) (rest : List Nat) (h : representable v = true) :
    ∃ b, pyEncode v = Except.ok b ∧ decode (b ++ rest) = DRes.dok v rest := by
  obtain ⟨b, hb, hlen, _⟩ := decodeF_pyEncode (depth v) v h le_rfl
  refine ⟨b, hb, ?_⟩
  obtain ⟨b2, hb2, _, hdec⟩ :=
    decodeF_pyEncode ((b ++ rest).length + 1) v h
      (by simp only [List.length_append]; omega)
  have hbb : b2 = b := by
    rw [hb] at hb2
    exact (Except.ok.inj hb2).symm
  subst hbb
  unfold decode
  exact hdec rest

/-! ## Dispatcher and store-command lemmas -/

/-- Dispatch of a list request with a bytes command token reduces to the
command table (`Server.get_response` → handler call). -/
theorem getResponse_cmd (kv : Store) (bs : List Nat) (args : List PyObj)
    (hv : validUtf8 (byteUpper bs) = true) :
    getResponse kv (.pylist (.pybytes bs :: args)) = runCommand kv (byteUpper bs) args := by
  simp [getResponse, dispatchTokens, hv]

/-- `Server.mget`'s comprehension succeeds on hashable keys and is exactly
the ordered per-key lookup. -/
theorem mgetLoop_hashable (kv : Store) (keys : List PyObj) (h : keys.all hashable = true) :
    mgetLoop kv keys = Except.ok (keys.map (pyGet kv)) := by
  induction keys with
  | nil => rfl
  | cons k t ih =>
    simp only [List.all_cons, Bool.and_eq_true] at h
    simp [mgetLoop, h.1, ih h.2]

/-- `Server.mset`'s assignment loop on hashable keys is the left fold of
dict insertion and does not raise. -/
theorem msetLoop_hashable (ps : List (PyObj × PyObj)) : ∀ kv : Store,
    ps.all (fun kv2 => hashable kv2.1) = true →
    msetLoop kv ps = (ps.foldl (fun d kv2 => dictInsert d kv2.1 kv2.2) kv, false) := by
  induction ps with
  | nil => intro kv _; rfl
  | cons p rest ih =>
    intro kv h
    obtain ⟨k, v⟩ := p
    simp only [List.all_cons, Bool.and_eq_true] at h
    simp [msetLoop, h.1, ih (dictInsert kv k v) h.2]

/-! ## The claims -/

/-- C1: for every representable Value `v` (bytes payload, signed integer,
Error message, null, ordered sequence, mapping), decoding the encoding of
`v` reproduces `v`'s semantic content exactly, consuming precisely the
encoded bytes: `pyEncode` succeeds and `decode` returns `v` and the
untouched remainder of the stream. -/
theorem c1_decode_encode_roundtrip (v : PyObj) (rest : List Nat)
    (h : representable v = true) :
    ∃ b, pyEncode v = Except.ok b ∧ decode (b ++ rest) = DRes.dok v rest :=
  decode_pyEncode v rest h

theorem c1_decode_encode_roundtrip_witness :
    ∃ b, pyEncode (PyObj.pydict [(PyObj.pybytes [107],
        PyObj.pylist [PyObj.pyint (-5), PyObj.pynone])]) = Except.ok b ∧
      decode (b ++ [33]) = DRes.dok (PyObj.pydict [(PyObj.pybytes [107],
        PyObj.pylist [PyObj.pyint (-5), PyObj.pynone])]) [33] :=
  c1_decode_encode_roundtrip _ [33] (by decide)

/-- C2 counterexample: the even-length argument list `[Array([]), b"a"]`
makes MSET raise `TypeError` (the first key is an unhashable Array), so it
does not return the pair count 1 as the claim demands. -/
theorem c2_mset_counterexample :
    ¬ ((getResponse [] (.pylist [.pybytes bMSET, .pylist [], .pybytes [97]])).2
        = Except.ok (.pyint 1)) := by decide

/-- C2 (amended): with an odd argument count MSET raises
`CommandError` and leaves the store exactly unchanged; with an even count
whose key positions are all hashable it applies the pairs left to right
(a later duplicate key overwrites an earlier one — the final lookup of any
key is the last pair carrying it, else the old binding) and returns half
the argument count. -/
theorem c2_mset_spec (kv : Store) (items : List PyObj) :
    (items.length % 2 ≠ 0 →
      getResponse kv (.pylist (.pybytes bMSET :: items))
        = (kv, Except.error (.commandError .msetOdd))) ∧
    (items.length % 2 = 0 → (msetPairs items).all (fun kv2 => hashable kv2.1) = true →
      getResponse kv (.pylist (.pybytes bMSET :: items))
        = ((msetPairs items).foldl (fun d kv2 => dictInsert d kv2.1 kv2.2) kv,
            Except.ok (.pyint (items.length / 2))) ∧
      ∀ k, dictGet ((msetPairs items).foldl (fun d kv2 => dictInsert d kv2.1 kv2.2) kv) k
          = oget (lastAssoc (msetPairs items) k) (dictGet kv k)) := by
  have hg : getResponse kv (.pylist (.pybytes bMSET :: items)) = runCommand kv bMSET items := by
    rw [getResponse_cmd kv bMSET items (by decide),
      show byteUpper bMSET = bMSET from by decide]
  constructor
  · intro hodd
    rw [hg]
    simp [runCommand, bGET, bSET, bDELETE, bFLUSH, bMGET, bMSET, hodd]
  · intro heven hhash
    refine ⟨?_, fun k => dictGet_foldl_insert (msetPairs items) kv k⟩
    rw [hg]
    simp [runCommand, bGET, bSET, bDELETE, bFLUSH, bMGET, bMSET, heven,
      msetLoop_hashable (msetPairs items) kv hhash]

theorem c2_mset_witness :
    getResponse [] (.pylist [.pybytes bMSET, .pybytes [97]])
        = ([], Except.error (.commandError .msetOdd)) ∧
    dictGet ((msetPairs [.pybytes [97], .pyint 1, .pybytes [97], .pyint 2]).foldl
        (fun d kv2 => dictInsert d kv2.1 kv2.2) []) (.pybytes [97]) = some (.pyint 2) := by
  constructor
  · exact (c2_mset_spec [] [.pybytes [97]]).1 (by decide)
  · have h := ((c2_mset_spec [] [.pybytes [97], .pyint 1, .pybytes [97], .pyint 2]).2
      (by decide) (by decide)).2 (.pybytes [97])
    rw [h]
    decide

/-- C3 counterexample: dispatching `GET` with zero arguments raises
`TypeError`, not `CommandError`, and one loop iteration on the wire request
`Array[b"GET"]` crashes the connection handler instead of writing an Error
reply and continuing. -/
theorem c3_arity_counterexample :
    (getResponse [] (.pylist [.pybytes bGET])).2 = Except.error SrvErr.typeError ∧
    connStep [] [42, 49, 13, 10, 36, 51, 13, 10, 71, 69, 84, 13, 10]
      = StepOut.crashed [] := by decide

/-- C3 (amended): a recognized fixed-arity command (`GET`, `SET`, `DELETE`,
`FLUSH`) dispatched with a wrong number of positional arguments raises
`TypeError`, which the dispatch phase does not convert to an Error reply;
on the wire, such a request makes the connection-handler iteration crash
(terminating the connection) rather than continue. (Only `MSET` checks its
argument count itself, with `CommandError` — see C2.) -/
theorem c3_arity_spec (kv : Store) (args : List PyObj) :
    (args.length ≠ 1 → getResponse kv (.pylist (.pybytes bGET :: args))
      = (kv, Except.error SrvErr.typeError)) ∧
    (args.length ≠ 2 → getResponse kv (.pylist (.pybytes bSET :: args))
      = (kv, Except.error SrvErr.typeError)) ∧
    (args.length ≠ 1 → getResponse kv (.pylist (.pybytes bDELETE :: args))
      = (kv, Except.error SrvErr.typeError)) ∧
    (args.length ≠ 0 → getResponse kv (.pylist (.pybytes bFLUSH :: args))
      = (kv, Except.error SrvErr.typeError)) ∧
    (∀ s rest, decode s = DRes.dok (.pylist (.pybytes bGET :: args)) rest →
      args.length ≠ 1 → connStep kv s = StepOut.crashed rest) := by
  have hget : args.length ≠ 1 → getResponse kv (.pylist (.pybytes bGET :: args))
      = (kv, Except.error SrvErr.typeError) := by
    intro hlen
    rw [getResponse_cmd kv bGET args (by decide), show byteUpper bGET = bGET from by decide]
    match args with
    | [] => simp [runCommand, bGET]
    | [k] => exact absurd rfl hlen
    | k :: k2 :: t => simp [runCommand, bGET]
  refine ⟨hget, ?_, ?_, ?_, ?_⟩
  · intro hlen
    rw [getResponse_cmd kv bSET args (by decide), show byteUpper bSET = bSET from by decide]
    match args with
    | [] => simp [runCommand, bGET, bSET]
    | [k] => simp [runCommand, bGET, bSET]
    | [k, v] => exact absurd rfl hlen
    | k :: k2 :: k3 :: t => simp [runCommand, bGET, bSET]
  · intro hlen
    rw [getResponse_cmd kv bDELETE args (by decide),
      show byteUpper bDELETE = bDELETE from by decide]
    match args with
    | [] => simp [runCommand, bGET, bSET, bDELETE]
    | [k] => exact absurd rfl hlen
    | k :: k2 :: t => simp [runCommand, bGET, bSET, bDELETE]
  · intro hlen
    rw [getResponse_cmd kv bFLUSH args (by decide),
      show byteUpper bFLUSH = bFLUSH from by decide]
    match args with
    | [] => exact absurd rfl hlen
    | k :: t => simp [runCommand, bGET, bSET, bDELETE, bFLUSH]
  · intro s rest hdec hlen
    simp only [connStep, hdec, hget hlen]

theorem c3_arity_witness :
    getResponse [] (.pylist [.pybytes bSET, .pybytes [97]])
      = ([], Except.error SrvErr.typeError) ∧
    connStep [] [42, 49, 13, 10, 36, 51, 13, 10, 71, 69, 84, 13, 10]
      = StepOut.crashed [] := by
  constructor
  · exact (c3_arity_spec [] [.pybytes [97]]).2.1 (by decide)
  · exact (c3_arity_spec [] []).2.2.2.2
      [42, 49, 13, 10, 36, 51, 13, 10, 71, 69, 84, 13, 10] [] (by decide) (by decide)

/-- C4, evaluated at the failing input (the single unknown tag byte `!`):
the decode phase raises `CommandError("bad request")` and the handler
catches it, but encoding the `Error(str(exc))` reply raises `TypeError`
inside `_write` (bytes `%s` with a `str` message, PEP 461), so the
iteration crashes with no reply written and the connection dies — only the
Disconnect path (empty stream) ends the loop silently as claimed. -/
theorem c4_error_reply_write_crashes :
    decode [33] = DRes.derr DErr.badRequest [] ∧
    connStep [] [33] = StepOut.crashed [] ∧
    connStep [] [] = StepOut.closedSilent [] ∧
    pyEncode (.pyerr (.pystr (derrMsgCps DErr.badRequest)))
      = Except.error EncErr.typeErrorPercentS := by decide

/-- C5: a `:`-tagged frame whose line content `int()` cannot parse makes the
decode call raise the `ValueError` (the specification's ProtocolError),
carrying the stripped line content. -/
theorem c5_integer_valueError (s line rest : List Nat)
    (hline : readLine s = (line, rest))
    (hbad : pythonInt (rstripCRLF line) = none) :
    decode (58 :: s) = DRes.derr (DErr.valueError (rstripCRLF line)) rest := by
  unfold decode
  rw [show (58 :: s).length + 1 = s.length + 1 + 1 from by simp]
  simp [decodeF, hline, hbad]

theorem c5_integer_valueError_witness :
    decode [58, 120, 13, 10] = DRes.derr (DErr.valueError (rstripCRLF [120, 13, 10])) [] :=
  c5_integer_valueError [120, 13, 10] [120, 13, 10] [] (by decide) (by decide)

/-- C6: FLUSH returns exactly the number of entries the store held before
the call and empties the store; on an empty store it returns 0 and the
store stays empty. -/
theorem c6_flush_spec (kv : Store) :
    getResponse kv (.pylist [.pybytes bFLUSH]) = ([], Except.ok (.pyint kv.length)) ∧
    getResponse ([] : Store) (.pylist [.pybytes bFLUSH]) = ([], Except.ok (.pyint 0)) := by
  have h : ∀ kv2 : Store, getResponse kv2 (.pylist [.pybytes bFLUSH])
      = ([], Except.ok (.pyint kv2.length)) := by
    intro kv2
    rw [getResponse_cmd kv2 bFLUSH [] (by decide),
      show byteUpper bFLUSH = bFLUSH from by decide]
    simp [runCommand, bGET, bSET, bDELETE, bFLUSH]
  exact ⟨h kv, h []⟩

/-- C7 counterexample: `MGET` with the single key `Array([])` raises
`TypeError` (unhashable key) instead of returning the claimed `[null]`. -/
theorem c7_mget_counterexample :
    ¬ ((getResponse [] (.pylist [.pybytes bMGET, .pylist []])).2
        = Except.ok (.pylist [.pynone])) := by decide

/-- C7 (amended): for every store and every sequence of hashable keys,
MGET returns an ordered sequence of the same length whose i-th element is
the per-key lookup of the i-th requested key (the stored value, or null
when absent), preserving the requested order; the store is unchanged. -/
theorem c7_mget_spec (kv : Store) (keys : List PyObj) (h : keys.all hashable = true) :
    getResponse kv (.pylist (.pybytes bMGET :: keys))
      = (kv, Except.ok (.pylist (keys.map (pyGet kv)))) ∧
    (keys.map (pyGet kv)).length = keys.length ∧
    (∀ i : Nat, (keys.map (pyGet kv))[i]? = (keys[i]?).map (pyGet kv)) ∧
    (∀ k v2, dictGet kv k = some v2 → pyGet kv k = v2) ∧
    (∀ k, dictGet kv k = none → pyGet kv k = PyObj.pynone) := by
  refine ⟨?_, by simp, ?_, ?_, ?_⟩
  · rw [getResponse_cmd kv bMGET keys (by decide),
      show byteUpper bMGET = bMGET from by decide]
    simp [runCommand, bGET, bSET, bDELETE, bFLUSH, bMGET, mgetLoop_hashable kv keys h]
  · intro i
    simp [List.getElem?_map]
  · intro k v2 hk
    simp [pyGet, hk]
  · intro k hk
    simp [pyGet, hk]

theorem c7_mget_witness :
    getResponse [(.pybytes [97], .pyint 7)]
        (.pylist [.pybytes bMGET, .pybytes [97], .pybytes [98]])
      = ([(.pybytes [97], .pyint 7)], Except.ok (.pylist [.pyint 7, .pynone])) := by
  have h := (c7_mget_spec [(.pybytes [97], .pyint 7)]
    [.pybytes [97], .pybytes [98]] (by decide)).1
  exact h.trans (by decide)

/-- C8 counterexample: `DELETE` with the key `Array([])` raises `TypeError`
(`key in dict` on an unhashable key) instead of returning the claimed 0. -/
theorem c8_delete_counterexample :
    ¬ ((getResponse [] (.pylist [.pybytes bDELETE, .pylist []])).2
        = Except.ok (.pyint 0)) := by decide

/-- C8 (amended): for every store with unique keys (every real Python dict
state) and every hashable key: if the key is absent DELETE returns 0 and
the store is exactly unchanged; if it is present DELETE removes exactly
that entry (all other keys unchanged) and returns 1, and a subsequent GET
of that key returns null. -/
theorem c8_delete_spec (kv : Store) (k : PyObj) (hk : hashable k = true)
    (hnd : nodupKeys (kv.map Prod.fst) = true) :
    (dictGet kv k = none →
      getResponse kv (.pylist [.pybytes bDELETE, k]) = (kv, Except.ok (.pyint 0))) ∧
    (∀ v, dictGet kv k = some v →
      getResponse kv (.pylist [.pybytes bDELETE, k])
        = (dictDelete kv k, Except.ok (.pyint 1)) ∧
      dictGet (dictDelete kv k) k = none ∧
      (∀ k2, k2 ≠ k → dictGet (dictDelete kv k) k2 = dictGet kv k2) ∧
      getResponse (dictDelete kv k) (.pylist [.pybytes bGET, k])
        = (dictDelete kv k, Except.ok PyObj.pynone)) := by
  have hdel : getResponse kv (.pylist [.pybytes bDELETE, k])
      = runCommand kv bDELETE [k] := by
    rw [getResponse_cmd kv bDELETE [k] (by decide),
      show byteUpper bDELETE = bDELETE from by decide]
  constructor
  · intro habs
    rw [hdel]
    simp [runCommand, bGET, bSET, bDELETE, hk, habs]
  · intro v hpres
    have hgone : dictGet (dictDelete kv k) k = none := dictGet_dictDelete_self kv k hnd
    refine ⟨?_, hgone, fun k2 hne => dictGet_dictDelete_ne kv k k2 hne, ?_⟩
    · rw [hdel]
      simp [runCommand, bGET, bSET, bDELETE, hk, hpres]
    · rw [getResponse_cmd (dictDelete kv k) bGET [k] (by decide),
        show byteUpper bGET = bGET from by decide]
      simp [runCommand, bGET, hk, pyGet, hgone]

theorem c8_delete_witness :
    getResponse [] (.pylist [.pybytes bDELETE, .pybytes [97]])
      = ([], Except.ok (.pyint 0)) ∧
    getResponse [(.pybytes [97], .pyint 7)] (.pylist [.pybytes bDELETE, .pybytes [97]])
      = ([], Except.ok (.pyint 1)) := by
  constructor
  · exact (c8_delete_spec [] (.pybytes [97]) (by decide) (by decide)).1 (by decide)
  · have h := ((c8_delete_spec [(.pybytes [97], .pyint 7)] (.pybytes [97])
      (by decide) (by decide)).2 (.pyint 7) (by decide)).1
    exact h.trans (by decide)

/-- C9: the encoder also accepts a Python `str` (outside the documented
Value union): whenever `s.encode("utf-8")` yields bytes `bs`, encoding the
`str` produces exactly the bytes of encoding `bs`, namely the bulk-string
frame: dollar, decimal length, CRLF, the UTF-8 bytes, CRLF. -/
theorem c9_str_encode (cps bs : List Nat) (h : utf8Encode cps = Except.ok bs) :
    pyEncode (.pystr cps) = pyEncode (.pybytes bs) ∧
    pyEncode (.pystr cps)
      = Except.ok (36 :: natDec bs.length ++ [13, 10] ++ bs ++ [13, 10]) := by
  constructor <;> simp [pyEncode, h, bulkFrame, crlf]

theorem c9_str_encode_witness :
    pyEncode (.pystr [104, 233]) = pyEncode (.pybytes [104, 195, 169]) ∧
    pyEncode (.pystr [104, 233]) = Except.ok [36, 51, 13, 10, 104, 195, 169, 13, 10] := by
  obtain ⟨h1, h2⟩ := c9_str_encode [104, 233] [104, 195, 169] (by decide)
  exact ⟨h1, h2.trans (by decide)⟩

/-- C10: the bulk-string decoder never verifies the frame terminator: a
`$N` frame (here `N = payload.length`) whose payload is followed by ANY two
bytes `c1 c2` decodes to exactly the `N`-byte payload without raising,
unconditionally discarding those two bytes. -/
theorem c10_bulk_terminator_unchecked (payload : List Nat) (c1 c2 : Nat) (rest : List Nat) :
    decode (36 :: (natDec payload.length ++ 13 :: 10 :: (payload ++ c1 :: c2 :: rest)))
      = DRes.dok (.pybytes payload) rest := by
  unfold decode
  rw [show (36 :: (natDec payload.length ++ 13 :: 10 :: (payload ++ c1 :: c2 :: rest))).length + 1
      = ((natDec payload.length ++ 13 :: 10 :: (payload ++ c1 :: c2 :: rest)).length + 1) + 1
    from by simp]
  exact decodeF_dollar _ payload c1 c2 rest

end Pydis
